import Mathlib

/-!
Verification of the PDF-splitter content model (`PDFProcessor`).

The TypeScript source is shallowly embedded: JS numbers used as page
indices are `Int`, JS numbers used as DPI / coordinates are `ℚ`,
JS strings are `String` (or `List Char` where the search engine scans
character positions), thrown errors are `Except PdfError`, and the
`Map`-backed registry is a function `String → Option LoadedPDF`
(mirroring `Map.get` / `Map.set`).  External collaborators (the pdfjs
document layer, the canvas raster surface, the md5 digest, the JS
regular-expression engine) are model parameters, and where the model of
such a collaborator is concrete it is written from the specification's
description of that collaborator.
-/

namespace PdfSplitter

/-- Error taxonomy of the processor's thrown errors. -/
inductive PdfError where
  | NotFound
  | InvalidPageNumber
  | InvalidRange
  | InvalidPattern
  | LoadFailed
  deriving Repr, DecidableEq

/-- `OutlineItem` of the source: title, optional 1-based page, depth,
optional children list (unset when the raw node has no children). -/
inductive OutlineItem where
  | node (title : String) (page : Option Nat) (level : Nat)
      (children : Option (List OutlineItem))

/-- Opaque key/value metadata mapping (`metaData.info`). -/
def MetaData := List (String × String)

/-- `LoadedPDF` record kept in the registry. -/
structure LoadedPDF where
  id : String
  path : String
  pageCount : Nat
  pages : List String
  metadata : Option MetaData
  outline : Option (List OutlineItem)

/-- The `loadedPDFs : Map<string, LoadedPDF>` registry, modelled by its
lookup function (so it holds at most one record per key by type). -/
def Registry := String → Option LoadedPDF

/-- `Map.set`: replace the binding of `id`. -/
def Registry.set (st : Registry) (id : String) (pdf : LoadedPDF) : Registry :=
  fun k => if k = id then some pdf else st k

/-- The empty registry. -/
def Registry.empty : Registry := fun _ => none

/-- `extractPage(pdfId, pageNumber)`: registry lookup, bounds check,
then `pdf.pages[pageNumber - 1] || ""` (out-of-range or empty index
degrades to the empty string, via `getD`). -/
def extractPage (st : Registry) (pdfId : String) (pageNumber : Int) :
    Except PdfError String :=
  match st pdfId with
  | none => .error .NotFound
  | some pdf =>
    if pageNumber < 1 ∨ pageNumber > (pdf.pageCount : Int) then
      .error .InvalidPageNumber
    else
      .ok (pdf.pages.getD (pageNumber.toNat - 1) "")

/-- One chunk of `extractRange`'s loop body:
`--- Page i ---\n` followed by `pdf.pages[i - 1] || ""`. -/
def rangeChunk (pages : List String) (i : Nat) : String :=
  "--- Page " ++ toString i ++ " ---\n" ++ pages.getD (i - 1) ""

/-- The list of chunks pushed by `extractRange`'s loop `for i = a..b`
(page numbers are positive in the guarded branch, so the loop counter
is the run of naturals from `a.toNat` of length `b - a + 1`). -/
def rangeChunks (pages : List String) (a b : Int) : List String :=
  (List.range' a.toNat (b.toNat + 1 - a.toNat)).map (rangeChunk pages)

/-- `extractRange(pdfId, startPage, endPage)`. -/
def extractRange (st : Registry) (pdfId : String) (startPage endPage : Int) :
    Except PdfError String :=
  match st pdfId with
  | none => .error .NotFound
  | some pdf =>
    if startPage < 1 ∨ endPage > (pdf.pageCount : Int) ∨ startPage > endPage then
      .error .InvalidRange
    else
      .ok (String.intercalate "\n\n" (rangeChunks pdf.pages startPage endPage))

/-! ### Search engine -/

/-- One reported match: `{ text, context }`. -/
structure SMatch where
  text : List Char
  context : List Char
  deriving Repr, DecidableEq

/-- One `SearchResult`: a page number with its nonempty match list
(the source field `matches` is a reserved word here, hence `found`). -/
structure SearchResult where
  page : Nat
  found : List SMatch
  deriving Repr, DecidableEq

/-- Character-wise `toLowerCase()`. -/
def toLowerL (l : List Char) : List Char := l.map Char.toLower

/-- JS `substring(a, b)` for `a ≤ b`, clipped to the string's end. -/
def subL (l : List Char) (a b : Nat) : List Char := (l.drop a).take (b - a)

/-- JS `trim()`: strip leading and trailing whitespace. -/
def trimL (l : List Char) : List Char :=
  ((l.dropWhile Char.isWhitespace).reverse.dropWhile Char.isWhitespace).reverse

/-- Fuel-driven scan for `indexOf(needle, pos)`: the least position
`≥ pos` where `needle` occurs in `hay`.  `hay.length + 1 - pos` fuel
makes the scan total; it reaches the end of `hay` exactly as JS does. -/
def jsIndexOfAux (hay need : List Char) : Nat → Nat → Option Nat
  | _, 0 => none
  | pos, fuel + 1 =>
    if pos + need.length ≤ hay.length then
      if (hay.drop pos).take need.length = need then some pos
      else jsIndexOfAux hay need (pos + 1) fuel
    else none

/-- JS `hay.indexOf(need, pos)` (`none` for `-1`). -/
def jsIndexOf (hay need : List Char) (pos : Nat) : Option Nat :=
  jsIndexOfAux hay need pos (hay.length + 1 - pos)

/-- The `±50`-character context window around a match at `position` of
length `len` in `pageText`, trimmed (`contextStart = max(0, position - 50)`
is truncated `Nat` subtraction). -/
def contextWindow (pageText : List Char) (position len : Nat) : List Char :=
  trimL (subL pageText (position - 50) (min pageText.length (position + len + 50)))

/-- The plain-mode `while ((position = searchText.indexOf(...)) !== -1)`
loop.  Each match records `pageText.substring(position, position +
query.length)` and the trimmed context; the scan then advances by
`searchQuery.length` (past the match, so matches never overlap).  The
loop is given `searchText.length + 1` fuel, which is enough for every
nonempty query (the JS loop never terminates on an empty query). -/
def plainLoop (pageText query searchQuery searchText : List Char) :
    Nat → Nat → List SMatch
  | _, 0 => []
  | pos, fuel + 1 =>
    match jsIndexOf searchText searchQuery pos with
    | none => []
    | some p =>
      { text := subL pageText p (p + query.length),
        context := contextWindow pageText p searchQuery.length } ::
        plainLoop pageText query searchQuery searchText (p + searchQuery.length) fuel

/-- Plain-mode matches of one page: case-fold query and page text when
`caseSensitive` is false, then run the forward scan from position 0. -/
def pageMatchesPlain (caseSensitive : Bool) (query pageText : List Char) :
    List SMatch :=
  let searchQuery := if caseSensitive then query else toLowerL query
  let searchText := if caseSensitive then pageText else toLowerL pageText
  plainLoop pageText query searchQuery searchText 0 (searchText.length + 1)

/-- A compiled JS regular expression, abstracted to the operation the
scan loop uses: `execFrom hay i` is the leftmost match starting at or
after `lastIndex = i` (the `g`-flag `exec` behaviour), returned as
`(index, matchedText)`.  The two laws are what `exec` guarantees: the
match starts no earlier than `lastIndex` and lies inside the string. -/
structure JSRegex where
  execFrom : List Char → Nat → Option (Nat × List Char)
  exec_ge : ∀ hay i p m, execFrom hay i = some (p, m) → i ≤ p
  exec_bound : ∀ hay i p m, execFrom hay i = some (p, m) → p + m.length ≤ hay.length

/-- The scan position after a match at `p` of length `len`: `exec` sets
`lastIndex := p + len`, and the zero-width guard
(`match.index === lastIndex`) then forces it forward by one. -/
def nextScanIndex (p len : Nat) : Nat :=
  if p + len = p then p + 1 else p + len

/-- The regex-mode `while ((match = regexPattern.exec(pageText)) !== null)`
loop, with `lastIndex` threaded explicitly and fuel making it total. -/
def regexLoop (eng : JSRegex) (pageText : List Char) : Nat → Nat → List SMatch
  | _, 0 => []
  | lastIndex, fuel + 1 =>
    match eng.execFrom pageText lastIndex with
    | none => []
    | some (p, m) =>
      { text := m, context := contextWindow pageText p m.length } ::
        regexLoop eng pageText (nextScanIndex p m.length) fuel

/-- Regex-mode matches of one page: `lastIndex` is reset to 0 per page. -/
def pageMatchesRegex (eng : JSRegex) (pageText : List Char) : List SMatch :=
  regexLoop eng pageText 0 (pageText.length + 1)

/-- The `pdf.pages.forEach((pageText, index) => ...)` accumulation:
push `{ page: index + 1, matches }` only when `matches` is nonempty. -/
def collectResults (f : List Char → List SMatch) :
    List (List Char) → Nat → List SearchResult
  | [], _ => []
  | t :: ts, i =>
    let ms := f t
    if ms.isEmpty then collectResults f ts (i + 1)
    else { page := i + 1, found := ms } :: collectResults f ts (i + 1)

/-- `searchPDF(pdfId, query, caseSensitive, regex)`, parametric in the
external regex compiler (`new RegExp(query, flags)`, `none` = throw). -/
def searchPDF (compile : List Char → String → Option JSRegex)
    (st : Registry) (pdfId : String) (query : List Char)
    (caseSensitive : Bool) (regex : Bool) :
    Except PdfError (List SearchResult) :=
  match st pdfId with
  | none => .error .NotFound
  | some pdf =>
    if regex then
      match compile query (if caseSensitive then "g" else "gi") with
      | none => .error .InvalidPattern
      | some eng =>
        .ok (collectResults (pageMatchesRegex eng) (pdf.pages.map String.toList) 0)
    else
      .ok (collectResults (pageMatchesPlain caseSensitive query)
        (pdf.pages.map String.toList) 0)

/-! ### A concrete model of the external regex engine -/

/-- Case folding applied by the engine when the `i` flag is present. -/
def foldCase (ci : Bool) (l : List Char) : List Char :=
  if ci then toLowerL l else l

/-- Does the literal alternative `alt` match at position `q` of `hay`?
The match must lie entirely inside `hay`; the returned matched text is
the actual slice of `hay` (not the folded alternative). -/
def altMatchAt (ci : Bool) (alt hay : List Char) (q : Nat) : Option (List Char) :=
  if q + alt.length ≤ hay.length ∧
      foldCase ci (subL hay q (q + alt.length)) = foldCase ci alt then
    some (subL hay q (q + alt.length))
  else none

/-- The leftmost match at or after position `i`: try each position in
turn and, at each position, each alternative in pattern order. -/
def firstAltMatch (ci : Bool) (alts : List (List Char)) (hay : List Char)
    (i : Nat) : Option (Nat × List Char) :=
  (List.range' i (hay.length + 1 - i)).findSome? fun q =>
    (alts.findSome? fun alt => altMatchAt ci alt hay q).map fun m => (q, m)

theorem altMatchAt_bound {ci : Bool} {alt hay : List Char} {q : Nat}
    {m : List Char} (h : altMatchAt ci alt hay q = some m) :
    q + m.length ≤ hay.length := by
  unfold altMatchAt at h
  split at h
  · rename_i hcond
    obtain ⟨hle, -⟩ := hcond
    cases h
    simp only [subL, List.length_take, List.length_drop]
    omega
  · exact absurd h (by simp)

theorem firstAltMatch_ge {ci : Bool} {alts : List (List Char)}
    {hay : List Char} {i p : Nat} {m : List Char}
    (h : firstAltMatch ci alts hay i = some (p, m)) : i ≤ p := by
  obtain ⟨q, hq, hfq⟩ := List.exists_of_findSome?_eq_some h
  rw [Option.map_eq_some'] at hfq
  obtain ⟨m', -, hpm⟩ := hfq
  obtain ⟨rfl, rfl⟩ := Prod.mk.injEq .. ▸ hpm
  exact (List.mem_range'_1.mp hq).1

theorem firstAltMatch_bound {ci : Bool} {alts : List (List Char)}
    {hay : List Char} {i p : Nat} {m : List Char}
    (h : firstAltMatch ci alts hay i = some (p, m)) :
    p + m.length ≤ hay.length := by
  obtain ⟨q, hq, hfq⟩ := List.exists_of_findSome?_eq_some h
  rw [Option.map_eq_some'] at hfq
  obtain ⟨m', hm', hpm⟩ := hfq
  obtain ⟨rfl, rfl⟩ := Prod.mk.injEq .. ▸ hpm
  obtain ⟨alt, -, halt⟩ := List.exists_of_findSome?_eq_some hm'
  exact altMatchAt_bound halt

/-- Modelled from the spec: the external JS regular-expression engine
(`new RegExp(query, flags)`) which the spec leaves as a collaborator,
restricted to the fragment its examples exercise — alternation `|` over
literal strings, case-folded under the `i` flag, scanning left to
right from `lastIndex`.  A pattern containing `[` (an unterminated
character class in the spec's example) fails to compile. -/
def modelCompile (pattern : List Char) (flags : String) : Option JSRegex :=
  if '[' ∈ pattern then none
  else
    let ci := 'i' ∈ flags.toList
    let alts := pattern.splitOn '|'
    some
      { execFrom := fun hay i => firstAltMatch ci alts hay i
        exec_ge := fun _ _ _ _ h => firstAltMatch_ge h
        exec_bound := fun _ _ _ _ h => firstAltMatch_bound h }

/-! ### Loading -/

/-- A positioned text run (`TextItem`): its string and the vertical
offset `transform[5]` (the `'str' in item` filter keeps only such runs). -/
structure TextItem where
  str : String
  y : ℚ

/-- A raw outline node as delivered by the document layer; `destPage` is
the resolved 0-based page index of its destination (`none` when the node
has no destination or its resolution failed — `getPageIndex` null). -/
inductive RawOutlineNode where
  | node (title : String) (destPage : Option Nat) (items : List RawOutlineNode)

/-- `processOutline`: copy the title, set `level`, convert the resolved
page index to 1-based, and recurse into children with `level + 1`
(children are set only when the raw node has a nonempty `items`). -/
def processOutline (level : Nat) : List RawOutlineNode → List OutlineItem
  | [] => []
  | .node title destPage items :: ns =>
    OutlineItem.node title (destPage.map (· + 1)) level
        (if items.isEmpty then none
         else some (processOutline (level + 1) items)) ::
      processOutline level ns

/-- The parsed document handed back by `getDocument`: page count,
`getMetadata().info` (`none` = threw or null), `getOutline`
(`none` = threw or null), and per 1-based page its text runs
(`none` = `getPage`/`getTextContent` threw for that page). -/
structure RawDoc where
  numPages : Nat
  metadataInfo : Option MetaData
  rawOutline : Option (List RawOutlineNode)
  pageItems : Nat → Option (List TextItem)

/-- The per-page text-reconstruction loop: keep `lastY`; a vertical jump
of more than 1 unit emits a line break before the run's string. -/
def layoutFold : Option ℚ → String → List TextItem → String
  | _, acc, [] => acc
  | lastY, acc, it :: rest =>
    let acc2 :=
      match lastY with
      | some y => if |y - it.y| > 1 then acc ++ "\n" ++ it.str else acc ++ it.str
      | none => acc ++ it.str
    layoutFold (some it.y) acc2 rest

/-- Text of page `i` (1-based): the reconstruction fold, or `""` when
extraction of that page failed (the per-page `catch`). -/
def pageTextOf (doc : RawDoc) (i : Nat) : String :=
  match doc.pageItems i with
  | some items => layoutFold none "" items
  | none => ""

/-- The `LoadedPDF` record `loadPDF` stores on success: id is the digest
of the path, pages are reconstructed for `1..numPages` in order,
metadata and outline are the best-effort extraction results (outline
unset when absent or empty). -/
def builtRecord (hash : String → String) (path : String) (doc : RawDoc) :
    LoadedPDF :=
  { id := hash path
    path := path
    pageCount := doc.numPages
    pages := (List.range' 1 doc.numPages).map (pageTextOf doc)
    metadata := doc.metadataInfo
    outline :=
      match doc.rawOutline with
      | some raw => if raw.isEmpty then none else some (processOutline 0 raw)
      | none => none }

/-- Outcome of `loadPDF`: the registry afterwards and the returned value
or thrown error. -/
structure LoadOutcome where
  registry : Registry
  result : Except PdfError (String × Nat)

/-- `loadPDF(path)`.  `hash` is the external md5-hex digest; `world`
models the fetch/read of `path` and `getDocument` on the bytes
(`none` = the fetch, read, or parse threw, which the outer `catch`
rethrows as `Failed to load PDF` before the registry is touched).
On success the fully built record is stored under `hash path` as the
final step. -/
def loadPDF (hash : String → String) (world : String → Option RawDoc)
    (st : Registry) (path : String) : LoadOutcome :=
  match world path with
  | none => { registry := st, result := .error .LoadFailed }
  | some doc =>
    { registry := st.set (hash path) (builtRecord hash path doc)
      result := .ok (hash path, doc.numPages) }

/-! ### Page rasterizer -/

/-- Image/render output formats. -/
inductive ImgFormat where
  | png
  | jpeg
  | unknown
  deriving Repr, DecidableEq

/-- JS `Math.round` (half-up, toward `+∞`) on the rational model of a JS
number. -/
def jsRound (x : ℚ) : ℤ := ⌊x + 1 / 2⌋

/-- A rendered page: `Math.round`ed viewport dimensions, format, dpi
(the encoded byte buffer is produced by the external raster surface and
carries no content relevant to the model). -/
structure RenderedPage where
  page : Int
  width : ℤ
  height : ℤ
  format : ImgFormat
  dpi : ℚ

/-- `renderPage(pdfId, pageNumber, dpi, format)`.  `pageDims n` is page
`n`'s native box; per the document layer's contract,
`getViewport({scale})` yields that box scaled by `scale = dpi / 72`. -/
def renderPage (pageDims : Nat → ℚ × ℚ) (st : Registry) (pdfId : String)
    (pageNumber : Int) (dpi : ℚ) (format : ImgFormat) :
    Except PdfError RenderedPage :=
  match st pdfId with
  | none => .error .NotFound
  | some pdf =>
    if pageNumber < 1 ∨ pageNumber > (pdf.pageCount : Int) then
      .error .InvalidPageNumber
    else
      let scale := dpi / 72
      let dims := pageDims pageNumber.toNat
      .ok { page := pageNumber
            width := jsRound (dims.1 * scale)
            height := jsRound (dims.2 * scale)
            format := format
            dpi := dpi }

/-! ### Image classifier / decoder -/

/-- A resolved image resource (`page.objs.get`): its byte stream,
declared dimensions, and color kind (1 = RGB/RGBA, 2 = grayscale). -/
structure ImageObj where
  data : List Nat
  width : Nat
  height : Nat
  kind : Nat

/-- The raw-to-RGBA conversion of `convertRawImageToPNG`: the
`width × height` RGBA buffer starts zeroed; kind 1 copies the source
bytes verbatim, kind 2 replicates each gray sample across R/G/B with
opaque alpha (writes beyond the buffer are dropped, unwritten bytes
stay zero). -/
def rawToRGBA (obj : ImageObj) : List Nat :=
  let n := obj.width * obj.height
  if obj.kind = 1 then
    (List.range (4 * n)).map (fun i => obj.data.getD i 0)
  else if obj.kind = 2 then
    ((List.range n).map (fun i =>
      if i < obj.data.length then
        [obj.data.getD i 0, obj.data.getD i 0, obj.data.getD i 0, 255]
      else [0, 0, 0, 0])).flatten
  else (List.range (4 * n)).map (fun _ => 0)

/-- Format sniffing on the first two bytes: `FF D8` → jpeg (kept as-is),
`89 50` → png (kept as-is), anything else with nonzero declared
dimensions → raw data converted to RGBA and PNG-encoded by the external
raster surface `encodePNG`; otherwise no image data is produced and the
operator is skipped. -/
def classifyImage (encodePNG : List Nat → List Nat) (obj : ImageObj) :
    Option (ImgFormat × List Nat) :=
  if obj.data.length > 0 then
    if obj.data.get? 0 = some 0xFF ∧ obj.data.get? 1 = some 0xD8 then
      some (.jpeg, obj.data)
    else if obj.data.get? 0 = some 0x89 ∧ obj.data.get? 1 = some 0x50 then
      some (.png, obj.data)
    else if obj.width ≠ 0 ∧ obj.height ≠ 0 then
      some (.png, encodePNG (rawToRGBA obj))
    else none
  else none

/-- One extracted image. -/
structure ImageInfo where
  page : Nat
  index : Nat
  width : ℤ
  height : ℤ
  format : ImgFormat
  data : List Nat
  deriving Repr, DecidableEq

/-- A page as seen by the image extractor: its operator list (opcode and
first argument = image name), its resource store (`none` = `objs.get`
threw or returned null, which is caught and skipped), and its native
box for the whole-page render fallback. -/
structure PageModel where
  ops : List (Nat × String)
  objs : String → Option ImageObj
  nativeW : ℚ
  nativeH : ℚ

/-- The operator-list scan of `extractImagesFromPage`: the three
image-painting opcodes are `paintImageXObject = 85`,
`paintJpegXObject = 82`, `paintImageMaskXObject = 83`; `idx` is the
running `imageIndex`, incremented only when an image is pushed. -/
def scanEmbedded (encodePNG : List Nat → List Nat) (page : PageModel)
    (pageNum : Nat) : List (Nat × String) → Nat → List ImageInfo
  | [], _ => []
  | (fn, name) :: rest, idx =>
    if fn = 85 ∨ fn = 82 ∨ fn = 83 then
      match page.objs name with
      | some obj =>
        match classifyImage encodePNG obj with
        | some (fmt, bytes) =>
          { page := pageNum, index := idx, width := (obj.width : ℤ),
            height := (obj.height : ℤ), format := fmt, data := bytes } ::
            scanEmbedded encodePNG page pageNum rest (idx + 1)
        | none => scanEmbedded encodePNG page pageNum rest idx
      | none => scanEmbedded encodePNG page pageNum rest idx
    else scanEmbedded encodePNG page pageNum rest idx

/-- `extractImagesFromPage(page, pageNum, dpi)`: scan for embedded
images first; if none were found and `dpi > 0`, render the whole page at
`scale = dpi / 72` as the single fallback image with index 0
(`renderBytes w h` is the external paint-and-PNG-encode of a `w × h`
viewport, modelled as always succeeding). -/
def extractImagesFromPage (encodePNG : List Nat → List Nat)
    (renderBytes : ℚ → ℚ → List Nat) (page : PageModel) (pageNum : Nat)
    (dpi : ℚ) : List ImageInfo :=
  let scale := dpi / 72
  let embedded := scanEmbedded encodePNG page pageNum page.ops 0
  if embedded.isEmpty ∧ dpi > 0 then
    [{ page := pageNum, index := 0
       width := jsRound (page.nativeW * scale)
       height := jsRound (page.nativeH * scale)
       format := .png
       data := renderBytes (page.nativeW * scale) (page.nativeH * scale) }]
  else embedded

/-- The re-opened document used by `extractImages` (re-fetched from the
record's path). -/
structure DocModel where
  numPages : Nat
  page : Nat → PageModel

/-- One image as returned by `extractImages`; `content` is the byte
buffer transported to the caller (its base64 re-encoding is an external
injective transport step). -/
structure ExtractedImage where
  page : Nat
  index : Nat
  width : ℤ
  height : ℤ
  format : ImgFormat
  content : List Nat
  deriving Repr, DecidableEq

/-- `extractImages(pdfId, pageNumbers?, dpi)`: re-open the source
(`getDoc`, `none` = the re-fetch or re-parse threw), default the page
list to all pages, silently skip out-of-range page numbers, and convert
every extracted image for transport. -/
def extractImages (encodePNG : List Nat → List Nat)
    (renderBytes : ℚ → ℚ → List Nat) (getDoc : String → Option DocModel)
    (st : Registry) (pdfId : String) (pageNumbers : Option (List Int))
    (dpi : ℚ) : Except PdfError (List ExtractedImage) :=
  match st pdfId with
  | none => .error .NotFound
  | some pdf =>
    match getDoc pdf.path with
    | none => .error .LoadFailed
    | some doc =>
      let pagesToProcess :=
        pageNumbers.getD ((List.range' 1 doc.numPages).map Int.ofNat)
      .ok ((pagesToProcess.map (fun pageNum =>
        if pageNum < 1 ∨ pageNum > (doc.numPages : Int) then []
        else
          (extractImagesFromPage encodePNG renderBytes
              (doc.page pageNum.toNat) pageNum.toNat dpi).map
            (fun info =>
              { page := info.page, index := info.index, width := info.width,
                height := info.height, format := info.format,
                content := info.data }))).flatten)

/-! ### Theorems -/

/-- A concrete two-page document and registry used to instantiate the
theorems below. -/
def wPdf : LoadedPDF :=
  { id := "d", path := "f.pdf", pageCount := 2, pages := ["alpha", "beta"],
    metadata := none, outline := none }

def wRegistry : Registry := Registry.empty.set "d" wPdf

/-- A concrete document for the search examples: page 1 holds
`"Hello World"`, page 2 holds no occurrence of the queries. -/
def sPdf : LoadedPDF :=
  { id := "s", path := "g.pdf", pageCount := 2, pages := ["Hello World", "zzz"],
    metadata := none, outline := none }

def sRegistry : Registry := Registry.empty.set "s" sPdf

/-- C1: for a loaded document, `extractPage(id, p)` succeeds with the
stored text of page `p` exactly when `1 ≤ p ≤ pageCount`, fails with
`InvalidPageNumber` for all `p` outside that range, and fails with
`NotFound` for an id not in the registry. -/
theorem extractPage_bounds (st : Registry) (pdfId : String) (p : Int) :
    (st pdfId = none → extractPage st pdfId p = .error .NotFound) ∧
    ∀ pdf, st pdfId = some pdf → pdf.pages.length = pdf.pageCount →
      ((1 ≤ p ∧ p ≤ (pdf.pageCount : Int)) →
        ∃ h : p.toNat - 1 < pdf.pages.length,
          extractPage st pdfId p = .ok (pdf.pages.get ⟨p.toNat - 1, h⟩)) ∧
      ((p < 1 ∨ (pdf.pageCount : Int) < p) →
        extractPage st pdfId p = .error .InvalidPageNumber) := by
  constructor
  · intro h
    simp only [extractPage, h]
  · intro pdf hpdf hlen
    constructor
    · rintro ⟨h1, h2⟩
      have hidx : p.toNat - 1 < pdf.pages.length := by omega
      refine ⟨hidx, ?_⟩
      simp only [extractPage, hpdf]
      rw [if_neg (by omega)]
      rw [List.getD_eq_getElem _ _ hidx, List.get_eq_getElem]
    · intro h
      simp only [extractPage, hpdf]
      rw [if_pos (by omega)]

/-- Witness for C1 on the concrete registry. -/
theorem extractPage_bounds_witness :
    extractPage wRegistry "d" 2 = .ok "beta" ∧
    extractPage wRegistry "d" 3 = .error .InvalidPageNumber ∧
    extractPage wRegistry "d" 0 = .error .InvalidPageNumber ∧
    extractPage wRegistry "missing" 1 = .error .NotFound := by
  refine ⟨?_, ?_, ?_, ?_⟩
  · obtain ⟨h, e⟩ :=
      ((extractPage_bounds wRegistry "d" 2).2 wPdf rfl rfl).1 (by decide)
    rw [e]
    rfl
  · exact ((extractPage_bounds wRegistry "d" 3).2 wPdf rfl rfl).2 (by decide)
  · exact ((extractPage_bounds wRegistry "d" 0).2 wPdf rfl rfl).2 (by decide)
  · exact (extractPage_bounds wRegistry "missing" 1).1 rfl

/-- C2: for a loaded document and `1 ≤ a ≤ b ≤ pageCount`,
`extractRange(id, a, b)` returns the `"\n\n"`-join of exactly
`b - a + 1` chunks, the `k`-th chunk being the marker
`--- Page (a+k) ---` followed by the stored text of page `a + k`
(markers are in ascending page order); for `a > b`, `a < 1` or
`b > pageCount` it fails with `InvalidRange`. -/
theorem extractRange_spec (st : Registry) (pdfId : String) (a b : Int) :
    (st pdfId = none → extractRange st pdfId a b = .error .NotFound) ∧
    ∀ pdf, st pdfId = some pdf → pdf.pages.length = pdf.pageCount →
      ((1 ≤ a ∧ a ≤ b ∧ b ≤ (pdf.pageCount : Int)) →
        extractRange st pdfId a b =
          .ok (String.intercalate "\n\n" (rangeChunks pdf.pages a b)) ∧
        (rangeChunks pdf.pages a b).length = (b - a + 1).toNat ∧
        ∀ k (hk : k < (rangeChunks pdf.pages a b).length),
          ∃ hp : a.toNat + k - 1 < pdf.pages.length,
            (rangeChunks pdf.pages a b).get ⟨k, hk⟩ =
              "--- Page " ++ toString (a.toNat + k) ++ " ---\n" ++
                pdf.pages.get ⟨a.toNat + k - 1, hp⟩) ∧
      ((a > b ∨ a < 1 ∨ b > (pdf.pageCount : Int)) →
        extractRange st pdfId a b = .error .InvalidRange) := by
  constructor
  · intro h
    simp only [extractRange, h]
  · intro pdf hpdf hlen
    constructor
    · rintro ⟨h1, h2, h3⟩
      refine ⟨?_, ?_, ?_⟩
      · simp only [extractRange, hpdf]
        rw [if_neg (by omega)]
      · simp only [rangeChunks, List.length_map, List.length_range']
        omega
      · intro k hk
        have hk' : k < b.toNat + 1 - a.toNat := by
          simpa only [rangeChunks, List.length_map, List.length_range'] using hk
        have hp : a.toNat + k - 1 < pdf.pages.length := by omega
        refine ⟨hp, ?_⟩
        simp only [rangeChunks, List.get_eq_getElem, List.getElem_map,
          List.getElem_range', Nat.mul_one, rangeChunk, one_mul]
        rw [List.getD_eq_getElem _ _ hp]
    · intro h
      simp only [extractRange, hpdf]
      rw [if_pos (by omega)]

/-- Witness for C2 on the concrete registry. -/
theorem extractRange_spec_witness :
    extractRange wRegistry "d" 1 2 =
      .ok "--- Page 1 ---\nalpha\n\n--- Page 2 ---\nbeta" ∧
    extractRange wRegistry "d" 2 1 = .error .InvalidRange ∧
    extractRange wRegistry "d" 1 3 = .error .InvalidRange ∧
    extractRange wRegistry "missing" 1 1 = .error .NotFound := by
  refine ⟨?_, ?_, ?_, ?_⟩
  · have h := (((extractRange_spec wRegistry "d" 1 2).2 wPdf rfl rfl).1
      (by refine ⟨by decide, by decide, by decide⟩)).1
    rw [h]
    rfl
  · exact ((extractRange_spec wRegistry "d" 2 1).2 wPdf rfl rfl).2 (by decide)
  · exact ((extractRange_spec wRegistry "d" 1 3).2 wPdf rfl rfl).2 (by decide)
  · exact (extractRange_spec wRegistry "missing" 1 1).1 rfl

theorem collectResults_cons (f : List Char → List SMatch) (t : List Char)
    (ts : List (List Char)) (i : Nat) :
    collectResults f (t :: ts) i =
      if (f t).isEmpty then collectResults f ts (i + 1)
      else { page := i + 1, found := f t } :: collectResults f ts (i + 1) := rfl

/-- Every result pushed by the `forEach` accumulation has a page number
above the running index and a nonempty match list. -/
theorem collectResults_mem (f : List Char → List SMatch) :
    ∀ (ts : List (List Char)) (i : Nat) sr, sr ∈ collectResults f ts i →
      i < sr.page ∧ sr.found ≠ [] := by
  intro ts
  induction ts with
  | nil => intro i sr h; cases h
  | cons t ts ih =>
    intro i sr h
    rw [collectResults_cons] at h
    by_cases hemp : (f t).isEmpty
    · rw [if_pos hemp] at h
      have := ih (i + 1) sr h
      exact ⟨by omega, this.2⟩
    · rw [if_neg hemp] at h
      rcases List.mem_cons.mp h with rfl | h'
      · exact ⟨Nat.lt_succ_self i, by simpa [List.isEmpty_iff] using hemp⟩
      · have := ih (i + 1) sr h'
        exact ⟨by omega, this.2⟩

/-- The `forEach` accumulation lists pages in strictly increasing
order. -/
theorem collectResults_sorted (f : List Char → List SMatch) :
    ∀ (ts : List (List Char)) (i : Nat),
      (collectResults f ts i).Pairwise (fun x y => x.page < y.page) := by
  intro ts
  induction ts with
  | nil => intro i; exact List.Pairwise.nil
  | cons t ts ih =>
    intro i
    rw [collectResults_cons]
    by_cases hemp : (f t).isEmpty
    · rw [if_pos hemp]
      exact ih (i + 1)
    · rw [if_neg hemp]
      refine List.Pairwise.cons ?_ (ih (i + 1))
      intro sr hsr
      show i + 1 < sr.page
      have := (collectResults_mem f ts (i + 1) sr hsr).1
      omega

/-- C3: plain search case-folds query and page text when insensitive and
scans forward past each match; searching `"hello"` case-insensitively on
a page containing `"Hello World"` yields exactly one match whose text is
`"Hello"` (the original-case slice) and whose context contains
`"World"`, pages with zero matches are omitted, and the results are in
ascending page order. -/
theorem plainSearch_spec :
    (∀ (st : Registry) (pdfId : String) (query : List Char) (cs : Bool) res,
      searchPDF modelCompile st pdfId query cs false = .ok res →
        res.Pairwise (fun x y => x.page < y.page) ∧ ∀ sr ∈ res, sr.found ≠ []) ∧
    (∀ (pageText query searchQuery searchText : List Char) (pos fuel p : Nat),
      jsIndexOf searchText searchQuery pos = some p →
        plainLoop pageText query searchQuery searchText pos (fuel + 1) =
          { text := subL pageText p (p + query.length),
            context := contextWindow pageText p searchQuery.length } ::
            plainLoop pageText query searchQuery searchText
              (p + searchQuery.length) fuel) ∧
    searchPDF modelCompile sRegistry "s" "hello".toList false false =
      .ok [{ page := 1,
             found := [{ text := "Hello".toList,
                         context := "Hello World".toList }] }] ∧
    "World".toList <:+: "Hello World".toList := by
  refine ⟨?_, ?_, ?_, ?_⟩
  · intro st pdfId query cs res h
    cases hst : st pdfId with
    | none =>
      simp only [searchPDF, hst] at h
      exact Except.noConfusion h
    | some pdf =>
      simp only [searchPDF, hst] at h
      rw [if_neg (by decide)] at h
      cases h
      exact ⟨collectResults_sorted _ _ 0,
        fun sr hsr => (collectResults_mem _ _ 0 sr hsr).2⟩
  · intro pageText query searchQuery searchText pos fuel p h
    simp only [plainLoop, h]
  · rfl
  · decide

/-- Witness for C3's quantified parts at concrete inputs. -/
theorem plainSearch_spec_witness :
    ([{ page := 1,
        found := [{ text := "Hello".toList,
                    context := "Hello World".toList }] }] :
        List SearchResult).Pairwise (fun x y => x.page < y.page) ∧
    plainLoop "ab".toList "a".toList "a".toList "ab".toList 0 3 =
      { text := ['a'], context := ['a', 'b'] } ::
        plainLoop "ab".toList "a".toList "a".toList "ab".toList 1 2 := by
  constructor
  · exact ((plainSearch_spec.1 sRegistry "s" "hello".toList false _)
      (plainSearch_spec.2.2.1)).1
  · exact plainSearch_spec.2.1 "ab".toList "a".toList "a".toList "ab".toList
      0 2 0 rfl

/-- C4: regex search hands the compiler the `g` flag (plus `i` exactly
when `caseSensitive` is false); a pattern that fails to compile (such as
`"["`) makes the whole search fail with `InvalidPattern` whatever the
loaded pages hold, and `"Hello|World"` on a page containing
`"Hello World"` reports exactly two matches, `"Hello"` then
`"World"`. -/
theorem regexSearch_spec :
    (∀ (st : Registry) (pdfId : String) (pdf : LoadedPDF) (query : List Char),
      st pdfId = some pdf →
        (modelCompile query "gi" = none →
          searchPDF modelCompile st pdfId query false true =
            .error .InvalidPattern) ∧
        (modelCompile query "g" = none →
          searchPDF modelCompile st pdfId query true true =
            .error .InvalidPattern)) ∧
    (∀ flags, modelCompile "[".toList flags = none) ∧
    searchPDF modelCompile sRegistry "s" "Hello|World".toList false true =
      .ok [{ page := 1,
             found := [{ text := "Hello".toList,
                         context := "Hello World".toList },
                       { text := "World".toList,
                         context := "Hello World".toList }] }] := by
  refine ⟨?_, ?_, ?_⟩
  · intro st pdfId pdf query hst
    constructor
    · intro hc
      simp only [searchPDF, hst]
      rw [if_pos trivial, if_neg (by decide), hc]
    · intro hc
      simp only [searchPDF, hst]
      rw [if_pos trivial, if_pos trivial, hc]
  · intro flags
    unfold modelCompile
    rw [if_pos (by decide)]
  · rfl

/-- Witness for C4's quantified parts at concrete inputs. -/
theorem regexSearch_spec_witness :
    searchPDF modelCompile sRegistry "s" "[".toList false true =
      .error .InvalidPattern ∧
    modelCompile "[".toList "gi" = none := by
  constructor
  · exact ((regexSearch_spec.1 sRegistry "s" sPdf "[".toList rfl).1
      (regexSearch_spec.2.1 "gi"))
  · exact regexSearch_spec.2.1 "gi"

/-- The regex scan loop's value is independent of any sufficient fuel:
adding fuel beyond `hay.length + 1 - lastIndex` never changes the
result, because the scan position strictly increases and matches stay
inside the page. -/
theorem regexLoop_fuel_add (eng : JSRegex) (hay : List Char) :
    ∀ (fuel : Nat) (li : Nat), hay.length + 1 - li ≤ fuel → ∀ k,
      regexLoop eng hay li (fuel + k) = regexLoop eng hay li fuel := by
  intro fuel
  induction fuel with
  | zero =>
    intro li hli k
    have hnone : eng.execFrom hay li = none := by
      cases hexec : eng.execFrom hay li with
      | none => rfl
      | some pm =>
        obtain ⟨p, m⟩ := pm
        have h1 := eng.exec_ge hay li p m hexec
        have h2 := eng.exec_bound hay li p m hexec
        omega
    cases k with
    | zero => rfl
    | succ k => simp only [regexLoop, hnone, Nat.zero_add]
  | succ fuel ih =>
    intro li hli k
    have hstep : fuel + 1 + k = (fuel + k) + 1 := by omega
    rw [hstep]
    cases hexec : eng.execFrom hay li with
    | none => simp only [regexLoop, hexec]
    | some pm =>
      obtain ⟨p, m⟩ := pm
      have h1 := eng.exec_ge hay li p m hexec
      have h2 := eng.exec_bound hay li p m hexec
      have hbound : hay.length + 1 - nextScanIndex p m.length ≤ fuel := by
        unfold nextScanIndex
        split <;> omega
      simp only [regexLoop, hexec]
      rw [ih (nextScanIndex p m.length) hbound k]

/-- C5: the regex-mode per-page scan makes strict progress — a zero
width match forces the position forward by exactly one, any match moves
the position strictly past where the scan stood — so the loop's result
stabilizes at fuel `pageText.length + 1` for every compiled pattern and
page (the loop terminates). -/
theorem regexLoop_progress (eng : JSRegex) (hay : List Char) :
    (∀ p, nextScanIndex p 0 = p + 1) ∧
    (∀ li p m, eng.execFrom hay li = some (p, m) →
      li < nextScanIndex p m.length) ∧
    (∀ li f1 f2, hay.length + 1 - li ≤ f1 → hay.length + 1 - li ≤ f2 →
      regexLoop eng hay li f1 = regexLoop eng hay li f2) := by
  refine ⟨?_, ?_, ?_⟩
  · intro p
    simp [nextScanIndex]
  · intro li p m hexec
    have h1 := eng.exec_ge hay li p m hexec
    unfold nextScanIndex
    split <;> omega
  · intro li f1 f2 h1 h2
    have e1 : f1 = (hay.length + 1 - li) + (f1 - (hay.length + 1 - li)) := by omega
    have e2 : f2 = (hay.length + 1 - li) + (f2 - (hay.length + 1 - li)) := by omega
    rw [e1, e2, regexLoop_fuel_add eng hay _ li (by omega),
      regexLoop_fuel_add eng hay _ li (by omega)]

/-- A concrete compiled engine (the literal pattern `a`, flags `g`). -/
def wEng : JSRegex :=
  { execFrom := fun hay i => firstAltMatch false ["a".toList] hay i
    exec_ge := fun _ _ _ _ h => firstAltMatch_ge h
    exec_bound := fun _ _ _ _ h => firstAltMatch_bound h }

/-- Witness for C5 on a concrete engine and page text. -/
theorem regexLoop_progress_witness :
    nextScanIndex 3 0 = 4 ∧
    (0 : Nat) < nextScanIndex 0 1 ∧
    regexLoop wEng "ab".toList 0 37 = regexLoop wEng "ab".toList 0 3 := by
  refine ⟨(regexLoop_progress wEng "ab".toList).1 3, ?_, ?_⟩
  · exact (regexLoop_progress wEng "ab".toList).2.1 0 0 "a".toList rfl
  · exact (regexLoop_progress wEng "ab".toList).2.2 0 37 3 (by decide) (by decide)

/-- Doubling the input of JS `Math.round` changes the output by at most
one from twice the rounded value. -/
theorem jsRound_double (x : ℚ) : |jsRound (2 * x) - 2 * jsRound x| ≤ 1 := by
  unfold jsRound
  have h1 : (⌊x + 1 / 2⌋ : ℚ) ≤ x + 1 / 2 := Int.floor_le _
  have h2 : x + 1 / 2 < ⌊x + 1 / 2⌋ + 1 := Int.lt_floor_add_one _
  have h3 : 2 * ⌊x + 1 / 2⌋ - 1 ≤ ⌊2 * x + 1 / 2⌋ := by
    rw [Int.le_floor]
    push_cast
    linarith
  have h4 : ⌊2 * x + 1 / 2⌋ < 2 * ⌊x + 1 / 2⌋ + 2 := by
    rw [Int.floor_lt]
    push_cast
    linarith
  rw [abs_le]
  omega

/-- C6: `renderPage` computes `scale = dpi / 72`, reports the native
viewport dimensions scaled by that factor and rounded to whole pixels,
and therefore doubling the DPI doubles each reported dimension to
within one pixel of rounding error. -/
theorem renderPage_dpi_scaling (pageDims : Nat → ℚ × ℚ) (st : Registry)
    (pdfId : String) (p : Int) (d : ℚ) (fmt : ImgFormat) :
    ∀ pdf, st pdfId = some pdf → 1 ≤ p → p ≤ (pdf.pageCount : Int) →
      (renderPage pageDims st pdfId p d fmt =
        .ok { page := p,
              width := jsRound ((pageDims p.toNat).1 * (d / 72)),
              height := jsRound ((pageDims p.toNat).2 * (d / 72)),
              format := fmt, dpi := d }) ∧
      (renderPage pageDims st pdfId p (2 * d) fmt =
        .ok { page := p,
              width := jsRound ((pageDims p.toNat).1 * (2 * d / 72)),
              height := jsRound ((pageDims p.toNat).2 * (2 * d / 72)),
              format := fmt, dpi := 2 * d }) ∧
      |jsRound ((pageDims p.toNat).1 * (2 * d / 72)) -
          2 * jsRound ((pageDims p.toNat).1 * (d / 72))| ≤ 1 ∧
      |jsRound ((pageDims p.toNat).2 * (2 * d / 72)) -
          2 * jsRound ((pageDims p.toNat).2 * (d / 72))| ≤ 1 := by
  intro pdf hst h1 h2
  refine ⟨?_, ?_, ?_, ?_⟩
  · simp only [renderPage, hst]
    rw [if_neg (by omega)]
  · simp only [renderPage, hst]
    rw [if_neg (by omega)]
  · have : (pageDims p.toNat).1 * (2 * d / 72) =
        2 * ((pageDims p.toNat).1 * (d / 72)) := by ring
    rw [this]
    exact jsRound_double _
  · have : (pageDims p.toNat).2 * (2 * d / 72) =
        2 * ((pageDims p.toNat).2 * (d / 72)) := by ring
    rw [this]
    exact jsRound_double _

/-- Native US-Letter page box used to instantiate the rasterizer. -/
def wDims : Nat → ℚ × ℚ := fun _ => (612, 792)

/-- Witness for C6: a page rendered at 96 then 192 DPI. -/
theorem renderPage_dpi_scaling_witness :
    renderPage wDims wRegistry "d" 1 96 .png =
      .ok { page := 1, width := 816, height := 1056,
            format := .png, dpi := 96 } ∧
    renderPage wDims wRegistry "d" 1 192 .png =
      .ok { page := 1, width := 1632, height := 2112,
            format := .png, dpi := 192 } ∧
    |(1632 : ℤ) - 2 * 816| ≤ 1 := by
  have h := renderPage_dpi_scaling wDims wRegistry "d" 1 96 .png wPdf rfl
    (by decide) (by decide)
  simp only [Int.toNat_one] at h
  rw [show (2 * (96 : ℚ)) = 192 from by norm_num] at h
  have hw1 : jsRound ((wDims 1).1 * ((96 : ℚ) / 72)) = 816 := by
    norm_num [wDims, jsRound]
  have hh1 : jsRound ((wDims 1).2 * ((96 : ℚ) / 72)) = 1056 := by
    norm_num [wDims, jsRound]
  have hw2 : jsRound ((wDims 1).1 * ((192 : ℚ) / 72)) = 1632 := by
    norm_num [wDims, jsRound]
  have hh2 : jsRound ((wDims 1).2 * ((192 : ℚ) / 72)) = 2112 := by
    norm_num [wDims, jsRound]
  rw [hw1, hh1, hw2, hh2] at h
  exact ⟨h.1, h.2.1, by norm_num⟩

/-- C7: on a page with no embedded images, `extractImages` with
`dpi = 0` returns the empty sequence for that page, while any positive
dpi returns exactly one image — the whole page rasterized at
`scale = dpi / 72`, carrying index 0. -/
theorem extractImages_fallback (encodePNG : List Nat → List Nat)
    (renderBytes : ℚ → ℚ → List Nat) (getDoc : String → Option DocModel)
    (st : Registry) (pdfId : String) :
    ∀ pdf doc, st pdfId = some pdf → getDoc pdf.path = some doc →
      1 ≤ doc.numPages →
      scanEmbedded encodePNG (doc.page 1) 1 (doc.page 1).ops 0 = [] →
      (extractImages encodePNG renderBytes getDoc st pdfId (some [1]) 0 =
        .ok []) ∧
      ∀ d : ℚ, 0 < d →
        extractImages encodePNG renderBytes getDoc st pdfId (some [1]) d =
          .ok [{ page := 1, index := 0,
                 width := jsRound ((doc.page 1).nativeW * (d / 72)),
                 height := jsRound ((doc.page 1).nativeH * (d / 72)),
                 format := .png,
                 content := renderBytes ((doc.page 1).nativeW * (d / 72))
                   ((doc.page 1).nativeH * (d / 72)) }] := by
  intro pdf doc hst hdoc hpages hscan
  have hrange : ¬((1 : Int) < 1 ∨ (1 : Int) > (doc.numPages : Int)) := by omega
  constructor
  · simp only [extractImages, hst, hdoc, Option.getD_some, List.map_cons,
      List.map_nil]
    rw [if_neg hrange]
    simp only [extractImagesFromPage, Int.toNat_one, hscan,
      List.isEmpty_nil, true_and]
    rw [if_neg (by norm_num)]
    rfl
  · intro d hd
    simp only [extractImages, hst, hdoc, Option.getD_some, List.map_cons,
      List.map_nil]
    rw [if_neg hrange]
    simp only [extractImagesFromPage, Int.toNat_one, hscan,
      List.isEmpty_nil, true_and]
    rw [if_pos hd]
    rfl

/-- A concrete image-free page and single-page document for C7. -/
def wPage : PageModel :=
  { ops := [(31, "g"), (44, "t")], objs := fun _ => none,
    nativeW := 612, nativeH := 792 }

def wDoc1 : DocModel := { numPages := 1, page := fun _ => wPage }

/-- Witness for C7: the image-free page at dpi 0 and dpi 96. -/
theorem extractImages_fallback_witness :
    extractImages (fun b => b) (fun _ _ => [7]) (fun _ => some wDoc1)
      wRegistry "d" (some [1]) 0 = .ok [] ∧
    extractImages (fun b => b) (fun _ _ => [7]) (fun _ => some wDoc1)
      wRegistry "d" (some [1]) 96 =
      .ok [{ page := 1, index := 0, width := 816, height := 1056,
             format := .png, content := [7] }] := by
  have h := extractImages_fallback (fun b => b) (fun _ _ => [7])
    (fun _ => some wDoc1) wRegistry "d" wPdf wDoc1 rfl rfl (by decide) rfl
  refine ⟨h.1, ?_⟩
  have h96 := h.2 96 (by norm_num)
  have hw : jsRound ((wDoc1.page 1).nativeW * ((96 : ℚ) / 72)) = 816 := by
    norm_num [wDoc1, wPage, jsRound]
  have hh : jsRound ((wDoc1.page 1).nativeH * ((96 : ℚ) / 72)) = 1056 := by
    norm_num [wDoc1, wPage, jsRound]
  rw [hw, hh] at h96
  exact h96

/-- C8: a successful load stores exactly one page-text entry per page —
the stored list's length is the page count, entry `i` is the
reconstructed text of page `i + 1` (index 0 = page 1) — and a page
whose text extraction failed contributes the empty string at its
position instead of aborting or shortening the load. -/
theorem loadPDF_pages_invariant (hash : String → String)
    (world : String → Option RawDoc) (st : Registry) (path : String)
    (doc : RawDoc) (hworld : world path = some doc) :
    ∃ rec, (loadPDF hash world st path).registry (hash path) = some rec ∧
      rec.pages.length = doc.numPages ∧
      rec.pageCount = doc.numPages ∧
      (∀ i (hi : i < rec.pages.length),
        rec.pages.get ⟨i, hi⟩ = pageTextOf doc (i + 1)) ∧
      (∀ i, i < doc.numPages → doc.pageItems (i + 1) = none →
        rec.pages.getD i "" = "") := by
  refine ⟨builtRecord hash path doc, ?_, ?_, rfl, ?_, ?_⟩
  · simp only [loadPDF, hworld, Registry.set]
    rw [if_pos trivial]
  · simp only [builtRecord, List.length_map, List.length_range']
  · intro i hi
    have hi' : i < doc.numPages := by
      simpa only [builtRecord, List.length_map, List.length_range'] using hi
    simp only [builtRecord, List.get_eq_getElem, List.getElem_map,
      List.getElem_range', one_mul]
    rw [Nat.add_comm]
  · intro i hi hfail
    have hlen : i < (builtRecord hash path doc).pages.length := by
      simp only [builtRecord, List.length_map, List.length_range']
      omega
    rw [List.getD_eq_getElem _ _ hlen]
    simp only [builtRecord, List.getElem_map, List.getElem_range', one_mul]
    rw [Nat.add_comm, pageTextOf, hfail]

/-- The concrete load world for the witnesses: `f.pdf` parses to a
two-page document whose second page fails text extraction. -/
def wHash : String → String := fun s => "md5:" ++ s

def wDoc : RawDoc :=
  { numPages := 2, metadataInfo := none, rawOutline := none,
    pageItems := fun i =>
      if i = 1 then some [{ str := "alpha", y := 0 }] else none }

def wWorld : String → Option RawDoc :=
  fun p => if p = "f.pdf" then some wDoc else none

/-- Witness for C8 on the concrete world. -/
theorem loadPDF_pages_invariant_witness :
    (builtRecord wHash "f.pdf" wDoc).pages.length = wDoc.numPages ∧
    (builtRecord wHash "f.pdf" wDoc).pages.getD 0 "" = "alpha" ∧
    (builtRecord wHash "f.pdf" wDoc).pages.getD 1 "" = "" := by
  obtain ⟨rec, h1, hlen, -, -, hfail⟩ :=
    loadPDF_pages_invariant wHash wWorld Registry.empty "f.pdf" wDoc rfl
  have h2 : (loadPDF wHash wWorld Registry.empty "f.pdf").registry
      (wHash "f.pdf") = some (builtRecord wHash "f.pdf" wDoc) := rfl
  rw [h1] at h2
  have hrec : rec = builtRecord wHash "f.pdf" wDoc := Option.some_injective _ h2
  refine ⟨hrec ▸ hlen, rfl, hrec ▸ hfail 1 (by decide) rfl⟩

/-- C9: the document id is a deterministic digest of the location
string alone — any two successful loads of the same path yield the same
id whatever bytes were fetched — and a second load of the same location
stores its new record under that same id, replacing the previous one
(the lookup of that id yields exactly the new record). -/
theorem loadPDF_id_from_location (hash : String → String)
    (world1 world2 : String → Option RawDoc) (st1 : Registry)
    (path : String) :
    (∀ id1 n1 id2 n2,
      (loadPDF hash world1 st1 path).result = .ok (id1, n1) →
      (loadPDF hash world2 st1 path).result = .ok (id2, n2) →
      id1 = id2 ∧ id1 = hash path) ∧
    ∀ doc2, world2 path = some doc2 →
      (loadPDF hash world2 ((loadPDF hash world1 st1 path).registry)
          path).registry (hash path) = some (builtRecord hash path doc2) := by
  constructor
  · intro id1 n1 id2 n2 h1 h2
    cases hw1 : world1 path with
    | none =>
      simp only [loadPDF, hw1] at h1
      exact Except.noConfusion h1
    | some doc1 =>
      cases hw2 : world2 path with
      | none =>
        simp only [loadPDF, hw2] at h2
        exact Except.noConfusion h2
      | some doc2 =>
        simp only [loadPDF, hw1] at h1
        simp only [loadPDF, hw2] at h2
        cases h1
        cases h2
        exact ⟨rfl, rfl⟩
  · intro doc2 hw2
    simp only [loadPDF, hw2, Registry.set]
    rw [if_pos trivial]

/-- A second concrete world for `f.pdf` with different content (three
pages instead of two). -/
def wDoc2 : RawDoc :=
  { numPages := 3, metadataInfo := none, rawOutline := none,
    pageItems := fun _ => none }

def wWorld2 : String → Option RawDoc :=
  fun p => if p = "f.pdf" then some wDoc2 else none

/-- Witness for C9: two loads of `f.pdf` through different worlds share
the id `md5:f.pdf`, and the reloaded registry holds the second record. -/
theorem loadPDF_id_from_location_witness :
    ("md5:f.pdf" = "md5:f.pdf" ∧ "md5:f.pdf" = wHash "f.pdf") ∧
    (loadPDF wHash wWorld2
        ((loadPDF wHash wWorld Registry.empty "f.pdf").registry)
        "f.pdf").registry (wHash "f.pdf") =
      some (builtRecord wHash "f.pdf" wDoc2) := by
  constructor
  · exact (loadPDF_id_from_location wHash wWorld wWorld2 Registry.empty
      "f.pdf").1 "md5:f.pdf" 2 "md5:f.pdf" 3 rfl rfl
  · exact (loadPDF_id_from_location wHash wWorld wWorld2 Registry.empty
      "f.pdf").2 wDoc2 rfl

/-- C10: `loadPDF` is atomic with respect to the registry — a failed
fetch or parse leaves every key exactly as it was — and on success the
record published under the digest id already carries the completed page
texts, metadata and outline, while every other key is untouched. -/
theorem loadPDF_atomic (hash : String → String)
    (world : String → Option RawDoc) (st : Registry) (path : String) :
    (world path = none →
      (loadPDF hash world st path).result = .error .LoadFailed ∧
      ∀ k, (loadPDF hash world st path).registry k = st k) ∧
    ∀ doc, world path = some doc →
      (loadPDF hash world st path).result = .ok (hash path, doc.numPages) ∧
      (loadPDF hash world st path).registry (hash path) =
        some (builtRecord hash path doc) ∧
      (∀ k, k ≠ hash path →
        (loadPDF hash world st path).registry k = st k) ∧
      (builtRecord hash path doc).pages =
        (List.range' 1 doc.numPages).map (pageTextOf doc) ∧
      (builtRecord hash path doc).metadata = doc.metadataInfo ∧
      (builtRecord hash path doc).outline =
        (match doc.rawOutline with
         | some raw => if raw.isEmpty then none
                       else some (processOutline 0 raw)
         | none => none) := by
  constructor
  · intro hw
    refine ⟨?_, ?_⟩
    · simp [loadPDF, hw]
    · intro k
      simp [loadPDF, hw]
  · intro doc hw
    refine ⟨?_, ?_, ?_, rfl, rfl, rfl⟩
    · simp only [loadPDF, hw]
    · simp only [loadPDF, hw, Registry.set]
      rw [if_pos trivial]
    · intro k hk
      simp only [loadPDF, hw, Registry.set]
      rw [if_neg hk]

/-- A world in which every fetch fails. -/
def wWorldFail : String → Option RawDoc := fun _ => none

/-- Witness for C10: a failed load leaves the prior record in place;
a successful load publishes the complete record and spares other keys. -/
theorem loadPDF_atomic_witness :
    (loadPDF wHash wWorldFail wRegistry "f.pdf").result =
      .error .LoadFailed ∧
    (loadPDF wHash wWorldFail wRegistry "f.pdf").registry "d" =
      wRegistry "d" ∧
    (loadPDF wHash wWorld wRegistry "f.pdf").registry (wHash "f.pdf") =
      some (builtRecord wHash "f.pdf" wDoc) ∧
    (loadPDF wHash wWorld wRegistry "f.pdf").registry "d" =
      wRegistry "d" := by
  have hfail := (loadPDF_atomic wHash wWorldFail wRegistry "f.pdf").1 rfl
  have hok := (loadPDF_atomic wHash wWorld wRegistry "f.pdf").2 wDoc rfl
  exact ⟨hfail.1, hfail.2 "d", hok.2.1, hok.2.2.1 "d" (by decide)⟩

end PdfSplitter
